import Mathlib

/-!
Shallow embedding of the Bergamot translation orchestration layer of
`src/lib/translation.ts` (enso-read), together with proofs about its
registry resolution, pair-path resolution, progress reporting, RPC
message handling and loader-coordinator state.

Conventions: the JS `Map<string, string[]>` registry is an association
list in insertion order; asynchronous network calls are oracles passed
as explicit arguments; module-level mutable state is threaded as values.
-/

namespace EnsoRead

/-! ### Registry data model

`availableLanguagePairsCache : Map<string, string[]>` maps a source
language code to the target codes reachable from it (translation.ts
lines 119-127). -/

/-- A JS `Map<string, string[]>` in insertion order. -/
abbrev Registry := List (String × List String)

/-- `pairs.get(source)` on the JS map. -/
def registryGet (pairs : Registry) (s : String) : Option (List String) :=
  (pairs.find? (fun e => e.1 == s)).map (fun e => e.2)

/-- `pairs.get(source)?.includes(target) || false` (translation.ts line 279). -/
def registryHas (pairs : Registry) (s t : String) : Bool :=
  match registryGet pairs s with
  | some ts => ts.contains t
  | none => false

/-- `pairs.get(source)!.push(target)`, preceded by
`if (!pairs.has(source)) pairs.set(source, [])` (lines 199-202): a new
source key is appended at the end of the map, an existing one keeps its
place and gains `target` at the end of its bucket. -/
def registryInsert (pairs : Registry) (s t : String) : Registry :=
  match pairs with
  | [] => [(s, [t])]
  | (k, ts) :: rest =>
    if k = s then (k, ts ++ [t]) :: rest else (k, ts) :: registryInsert rest s t

/-! ### Path Resolver: `getTranslationPairInfo` (translation.ts lines 265-323) -/

/-- Result shape of `getTranslationPairInfo` (lines 251-257). -/
structure TranslationPairInfo where
  available : Bool
  isDirect : Bool
  isPivot : Bool
  pivotPath : Option String
  modelCount : Nat
deriving DecidableEq, Repr

/-- The hub language hard-coded at line 290 (`const pivotLang = 'en'`). -/
def pivotLang : String := "en"

/-- `getTranslationPairInfo(source, target)` over an already-resolved
registry (lines 265-323): same-language is unavailable; a direct entry
wins; otherwise pivot through `en` only when neither endpoint is `en`
and both `source → en` and `en → target` exist. -/
def getTranslationPairInfo (pairs : Registry) (source target : String) :
    TranslationPairInfo :=
  if source = target then
    ⟨false, false, false, none, 0⟩
  else if registryHas pairs source target then
    ⟨true, true, false, none, 1⟩
  else if source = pivotLang ∨ target = pivotLang then
    ⟨false, false, false, none, 0⟩
  else if registryHas pairs source pivotLang ∧ registryHas pairs pivotLang target then
    ⟨true, false, true, some (source ++ " → " ++ pivotLang ++ " → " ++ target), 2⟩
  else
    ⟨false, false, false, none, 0⟩

/-! ### Registry Resolver: `getAvailableBergamotLanguagePairs`
(translation.ts lines 142-238)

The network is an oracle `Nat → FetchOutcome` giving each attempt's
outcome. A fetched response only matters through its `data.models`
entries, and an entry only through its pair key and whether its model
list is a nonempty array, so raw models are `List (String × Nat)`
(pair key, model count). HTTP errors, JSON errors, shape-validation
errors and the zero-pair error all land in the same `catch` and are
retried; only `AbortError` (the 10 s timeout firing) breaks out. -/

/-- Raw `data.models` entries of one fetched registry document. -/
abbrev RawModels := List (String × Nat)

/-- Outcome of one fetch attempt against `/api/bergamot/registry`. -/
inductive FetchOutcome where
  | ok (models : RawModels)
  | fail
  | abortTimeout
deriving DecidableEq, Repr

/-- The parse loop (lines 192-204): split each key on `-`, keep entries
whose first two parts are nonempty and whose model list is nonempty,
and append the target to the source's bucket. -/
def parseRegistryPairs (raw : RawModels) : Registry :=
  raw.foldl
    (fun pairs e =>
      match e.1.splitOn "-" with
      | s :: t :: _ =>
        if s ≠ "" ∧ t ≠ "" ∧ 0 < e.2 then registryInsert pairs s t else pairs
      | _ => pairs)
    []

/-- `Math.min(1000 * Math.pow(2, attempt), 5000)` (line 226). -/
def backoffDelay (attempt : Nat) : Nat :=
  min (1000 * 2 ^ attempt) 5000

/-- What one run of the retry loop produced: the returned registry, the
value of `availableLanguagePairsCache` afterwards, how many fetch
attempts were made, and the backoff sleeps (in ms) between them. -/
structure ResolveResult where
  registry : Registry
  cacheAfter : Option Registry
  fetches : Nat
  delays : List Nat
deriving DecidableEq, Repr

/-- The retry loop body (lines 160-237), by remaining attempts:
a successful nonempty parse returns and caches it; `AbortError` breaks
immediately; any other failure sleeps `backoffDelay attempt` and retries
unless this was the last attempt; exhaustion returns the empty map with
the cache untouched. -/
def attemptsRun (oracle : Nat → FetchOutcome) : Nat → Nat → ResolveResult
  | 0, _ => ⟨[], none, 0, []⟩
  | remaining + 1, attempt =>
    let failNext : ResolveResult :=
      if remaining = 0 then ⟨[], none, 1, []⟩
      else
        let rest := attemptsRun oracle remaining (attempt + 1)
        ⟨rest.registry, rest.cacheAfter, rest.fetches + 1,
          backoffDelay attempt :: rest.delays⟩
    match oracle attempt with
    | .abortTimeout => ⟨[], none, 1, []⟩
    | .fail => failNext
    | .ok raw =>
      let pairs := parseRegistryPairs raw
      if pairs = [] then failNext else ⟨pairs, some pairs, 1, []⟩

/-- `getAvailableBergamotLanguagePairs(retries)` (lines 142-238) given the
current `availableLanguagePairsCache`: a cached registry is returned with
no network activity, otherwise the retry loop runs. The source default is
`retries = 3`. -/
def getAvailableBergamotLanguagePairs (cache : Option Registry) (retries : Nat)
    (oracle : Nat → FetchOutcome) : ResolveResult :=
  match cache with
  | some c => ⟨c, some c, 0, []⟩
  | none => attemptsRun oracle retries 0

/-- An attempt whose outcome lands in the `catch` block: a network/HTTP
failure, a timeout abort, or a response that parses to zero pairs
(line 206 throws on that). -/
def attemptFails (o : FetchOutcome) : Bool :=
  match o with
  | .ok raw => parseRegistryPairs raw == []
  | .fail => true
  | .abortTimeout => true

/-- An attempt that fails but is retried: anything in the `catch` block
except `AbortError` (lines 219-222 break out of the loop on abort). -/
def attemptRetryFails (o : FetchOutcome) : Bool :=
  match o with
  | .ok raw => parseRegistryPairs raw == []
  | .fail => true
  | .abortTimeout => false

theorem attemptsRun_fetches_le (oracle : Nat → FetchOutcome) :
    ∀ r a, (attemptsRun oracle r a).fetches ≤ r := by
  intro r
  induction r with
  | zero => intro a; simp [attemptsRun]
  | succ m ih =>
    intro a
    rcases h : oracle a with raw | - | -
    · by_cases hp : parseRegistryPairs raw = []
      · by_cases hm : m = 0
        · subst hm; simp [attemptsRun, h, hp]
        · have := ih (a + 1)
          simp [attemptsRun, h, hp, hm]
          omega
      · simp [attemptsRun, h, hp]
    · by_cases hm : m = 0
      · subst hm; simp [attemptsRun, h]
      · have := ih (a + 1)
        simp [attemptsRun, h, hm]
        omega
    · simp [attemptsRun, h]

theorem attemptsRun_fetches_pos (oracle : Nat → FetchOutcome) (r a : Nat)
    (h : 0 < r) : 1 ≤ (attemptsRun oracle r a).fetches := by
  rcases r with - | m
  · omega
  rcases ho : oracle a with raw | - | -
  · by_cases hp : parseRegistryPairs raw = []
    · by_cases hm : m = 0
      · subst hm; simp [attemptsRun, ho, hp]
      · simp [attemptsRun, ho, hp, hm]
    · simp [attemptsRun, ho, hp]
  · by_cases hm : m = 0
    · subst hm; simp [attemptsRun, ho]
    · simp [attemptsRun, ho, hm]
  · simp [attemptsRun, ho]

theorem attemptsRun_delays (oracle : Nat → FetchOutcome) :
    ∀ r a, (attemptsRun oracle r a).delays =
      (List.range ((attemptsRun oracle r a).fetches - 1)).map
        (fun i => backoffDelay (a + i)) := by
  intro r
  induction r with
  | zero => intro a; simp [attemptsRun]
  | succ m ih =>
    intro a
    have cons_case :
        ∀ rest : ResolveResult, 0 < rest.fetches →
        rest.delays =
          (List.range (rest.fetches - 1)).map (fun i => backoffDelay (a + 1 + i)) →
        backoffDelay a :: rest.delays =
          (List.range (rest.fetches + 1 - 1)).map (fun i => backoffDelay (a + i)) := by
      intro rest hpos hdel
      have hsucc : rest.fetches + 1 - 1 = (rest.fetches - 1) + 1 := by omega
      rw [hsucc, List.range_succ_eq_map, List.map_cons, List.map_map, hdel]
      have : ((fun i => backoffDelay (a + i)) ∘ Nat.succ) =
          fun i => backoffDelay (a + 1 + i) := by
        funext i
        have : a + Nat.succ i = a + 1 + i := by omega
        simp [Function.comp, this]
      simp [this]
    rcases h : oracle a with raw | - | -
    · by_cases hp : parseRegistryPairs raw = []
      · by_cases hm : m = 0
        · subst hm; simp [attemptsRun, h, hp]
        · have hpos := attemptsRun_fetches_pos oracle m (a + 1) (Nat.pos_of_ne_zero hm)
          have hdel := ih (a + 1)
          simp only [attemptsRun, h, hp, if_pos rfl, if_neg hm]
          exact cons_case _ hpos hdel
      · simp [attemptsRun, h, hp]
    · by_cases hm : m = 0
      · subst hm; simp [attemptsRun, h]
      · have hpos := attemptsRun_fetches_pos oracle m (a + 1) (Nat.pos_of_ne_zero hm)
        have hdel := ih (a + 1)
        simp only [attemptsRun, h, if_neg hm]
        exact cons_case _ hpos hdel
    · simp [attemptsRun, h]

theorem attemptsRun_abort_stops (oracle : Nat → FetchOutcome) :
    ∀ k r a, k < r → oracle (a + k) = .abortTimeout →
      (∀ j, j < k → attemptRetryFails (oracle (a + j)) = true) →
      (attemptsRun oracle r a).fetches = k + 1 ∧
      (attemptsRun oracle r a).registry = [] := by
  intro k
  induction k with
  | zero =>
    intro r a hr habort _
    rcases r with - | m
    · omega
    simp only [Nat.add_zero] at habort
    simp [attemptsRun, habort]
  | succ n ih =>
    intro r a hr habort hprev
    rcases r with - | m
    · omega
    have h0 : attemptRetryFails (oracle a) = true := by
      have := hprev 0 (Nat.succ_pos n)
      simpa using this
    have hm : m ≠ 0 := by omega
    have hrec := ih m (a + 1) (by omega)
      (by have : a + 1 + n = a + (n + 1) := by omega
          rw [this]; exact habort)
      (by intro j hj
          have : a + 1 + j = a + (j + 1) := by omega
          rw [this]; exact hprev (j + 1) (by omega))
    obtain ⟨hrec1, hrec2⟩ := hrec
    rcases ho : oracle a with raw | - | -
    · have hp : parseRegistryPairs raw = [] := by
        rw [ho] at h0; simpa [attemptRetryFails] using h0
      simp [attemptsRun, ho, hp, hm]
      exact ⟨by omega, hrec2⟩
    · simp [attemptsRun, ho, hm]
      exact ⟨by omega, hrec2⟩
    · rw [ho] at h0; simp [attemptRetryFails] at h0

theorem attemptsRun_allfail (oracle : Nat → FetchOutcome) :
    ∀ r a, (∀ j, j < r → attemptFails (oracle (a + j)) = true) →
      (attemptsRun oracle r a).registry = [] ∧
      (attemptsRun oracle r a).cacheAfter = none := by
  intro r
  induction r with
  | zero => intro a _; simp [attemptsRun]
  | succ m ih =>
    intro a h
    have h0 : attemptFails (oracle a) = true := by simpa using h 0 (Nat.succ_pos m)
    have hrec : m ≠ 0 →
        (attemptsRun oracle m (a + 1)).registry = [] ∧
        (attemptsRun oracle m (a + 1)).cacheAfter = none := by
      intro _
      refine ih (a + 1) (fun j hj => ?_)
      have : a + 1 + j = a + (j + 1) := by omega
      rw [this]; exact h (j + 1) (by omega)
    rcases ho : oracle a with raw | - | -
    · have hp : parseRegistryPairs raw = [] := by
        rw [ho] at h0; simpa [attemptFails] using h0
      by_cases hm : m = 0
      · subst hm; simp [attemptsRun, ho, hp]
      · simp only [attemptsRun, ho, hp, if_pos rfl, if_neg hm]
        exact hrec hm
    · by_cases hm : m = 0
      · subst hm; simp [attemptsRun, ho]
      · simp only [attemptsRun, ho, if_neg hm]
        exact hrec hm
    · simp [attemptsRun, ho]

theorem attemptsRun_cache_some (oracle : Nat → FetchOutcome) :
    ∀ r a p, (attemptsRun oracle r a).cacheAfter = some p →
      p ≠ [] ∧ ∃ k, k < r ∧ ∃ raw, oracle (a + k) = .ok raw ∧
        p = parseRegistryPairs raw := by
  intro r
  induction r with
  | zero => intro a p h; simp [attemptsRun] at h
  | succ m ih =>
    intro a p h
    have step : m ≠ 0 → (attemptsRun oracle m (a + 1)).cacheAfter = some p →
        p ≠ [] ∧ ∃ k, k < m + 1 ∧ ∃ raw, oracle (a + k) = .ok raw ∧
          p = parseRegistryPairs raw := by
      intro _ hc
      obtain ⟨hne, k, hk, raw, hraw, hparse⟩ := ih (a + 1) p hc
      refine ⟨hne, k + 1, by omega, raw, ?_, hparse⟩
      have : a + (k + 1) = a + 1 + k := by omega
      rw [this]; exact hraw
    rcases ho : oracle a with raw | - | -
    · by_cases hp : parseRegistryPairs raw = []
      · by_cases hm : m = 0
        · subst hm; simp [attemptsRun, ho, hp] at h
        · simp only [attemptsRun, ho, hp, if_pos rfl, if_neg hm] at h
          exact step hm h
      · simp [attemptsRun, ho, hp] at h
        subst h
        exact ⟨hp, 0, Nat.succ_pos m, raw, by simpa using ho, rfl⟩
    · by_cases hm : m = 0
      · subst hm; simp [attemptsRun, ho] at h
      · simp only [attemptsRun, ho, if_neg hm] at h
        exact step hm h
    · simp [attemptsRun, ho] at h

/-- C2: `getTranslationPairInfo` resolves a same-language pair as
unavailable with 0 models; a direct registry entry as a one-model direct
route; a pair with neither endpoint equal to the hub `en` whose two hops
`source → en` and `en → target` both exist as a two-model pivot route
with path "source → en → target"; and every other case as unavailable
with 0 models. On the registry {ja→[en], en→[fr]} it yields the three
documented answers. -/
theorem c2_pair_resolution :
    (∀ pairs : Registry, ∀ s t : String,
      (s = t → getTranslationPairInfo pairs s t = ⟨false, false, false, none, 0⟩) ∧
      (s ≠ t → registryHas pairs s t = true →
        getTranslationPairInfo pairs s t = ⟨true, true, false, none, 1⟩) ∧
      (s ≠ t → registryHas pairs s t = false → s ≠ pivotLang → t ≠ pivotLang →
        registryHas pairs s pivotLang = true → registryHas pairs pivotLang t = true →
        getTranslationPairInfo pairs s t =
          ⟨true, false, true, some (s ++ " → " ++ pivotLang ++ " → " ++ t), 2⟩) ∧
      (s ≠ t → registryHas pairs s t = false →
        (s = pivotLang ∨ t = pivotLang ∨ registryHas pairs s pivotLang = false ∨
          registryHas pairs pivotLang t = false) →
        getTranslationPairInfo pairs s t = ⟨false, false, false, none, 0⟩)) ∧
    getTranslationPairInfo [("ja", ["en"]), ("en", ["fr"])] "ja" "fr" =
      ⟨true, false, true, some "ja → en → fr", 2⟩ ∧
    getTranslationPairInfo [("ja", ["en"]), ("en", ["fr"])] "ja" "en" =
      ⟨true, true, false, none, 1⟩ ∧
    getTranslationPairInfo [("ja", ["en"]), ("en", ["fr"])] "ja" "ja" =
      ⟨false, false, false, none, 0⟩ := by
  refine ⟨fun pairs s t => ⟨?_, ?_, ?_, ?_⟩, by decide, by decide, by decide⟩
  · intro h; simp [getTranslationPairInfo, h]
  · intro h hd; simp [getTranslationPairInfo, h, hd]
  · intro h hd hs ht h1 h2
    simp [getTranslationPairInfo, h, hd, hs, ht, h1, h2]
  · intro h hd hcase
    unfold getTranslationPairInfo
    split_ifs with hst hdir hpv hpiv
    · exact absurd hst h
    · rw [hd] at hdir; exact absurd hdir (by simp)
    · rfl
    · rcases hcase with hs | ht | h1 | h2
      · exact absurd (Or.inl hs) hpv
      · exact absurd (Or.inr ht) hpv
      · rw [h1] at hpiv; simp at hpiv
      · rw [h2] at hpiv; simp at hpiv
    · rfl

/-- Witness for C2 at a concrete pivot input: registry {de→[en], en→[ja]}
resolves (de, ja) as the two-model pivot route through `en`. -/
theorem c2_pair_resolution_witness :
    getTranslationPairInfo [("de", ["en"]), ("en", ["ja"])] "de" "ja" =
      ⟨true, false, true, some "de → en → ja", 2⟩ := by
  have h := (c2_pair_resolution.1 [("de", ["en"]), ("en", ["ja"])] "de" "ja").2.2.1
  simpa using h (by decide) (by decide) (by decide) (by decide) (by decide) (by decide)

/-- C3: with an empty cache, `getAvailableBergamotLanguagePairs` makes at
most 3 fetch attempts; the sleeps between consecutive attempts follow
`min(1000·2^i, 5000)` ms, i.e. 1 s then 2 s, capped at 5 s; a timeout
abort on an attempt stops retrying immediately; and when every attempt
fails the caller receives the empty registry value instead of a raised
error. -/
theorem c3_registry_retry_discipline (oracle : Nat → FetchOutcome) :
    (getAvailableBergamotLanguagePairs none 3 oracle).fetches ≤ 3 ∧
    (getAvailableBergamotLanguagePairs none 3 oracle).delays =
      (List.range ((getAvailableBergamotLanguagePairs none 3 oracle).fetches - 1)).map
        backoffDelay ∧
    backoffDelay 0 = 1000 ∧ backoffDelay 1 = 2000 ∧ (∀ i, backoffDelay i ≤ 5000) ∧
    (∀ k, k < 3 → oracle k = .abortTimeout →
      (∀ j, j < k → attemptRetryFails (oracle j) = true) →
      (getAvailableBergamotLanguagePairs none 3 oracle).fetches = k + 1 ∧
      (getAvailableBergamotLanguagePairs none 3 oracle).registry = []) ∧
    ((∀ j, j < 3 → attemptFails (oracle j) = true) →
      (getAvailableBergamotLanguagePairs none 3 oracle).registry = []) := by
  simp only [getAvailableBergamotLanguagePairs]
  refine ⟨attemptsRun_fetches_le oracle 3 0, ?_, by decide, by decide,
    fun i => Nat.min_le_right _ _, ?_, ?_⟩
  · have h := attemptsRun_delays oracle 3 0
    have hfun : (fun i => backoffDelay (0 + i)) = backoffDelay := by
      funext i; simp
    rwa [hfun] at h
  · intro k hk habort hprev
    exact attemptsRun_abort_stops oracle k 3 0 hk (by simpa using habort)
      (fun j hj => by simpa using hprev j hj)
  · intro hall
    exact (attemptsRun_allfail oracle 3 0 (fun j hj => by simpa using hall j hj)).1

/-- Witness for C3: an oracle failing once and then timing out makes
exactly 2 attempts and yields the empty registry. -/
theorem c3_registry_retry_discipline_witness :
    (getAvailableBergamotLanguagePairs none 3
        (fun n => if n = 0 then FetchOutcome.fail else FetchOutcome.abortTimeout)).fetches
      = 2 ∧
    (getAvailableBergamotLanguagePairs none 3
        (fun n => if n = 0 then FetchOutcome.fail else FetchOutcome.abortTimeout)).registry
      = [] := by
  have h := c3_registry_retry_discipline
    (fun n => if n = 0 then FetchOutcome.fail else FetchOutcome.abortTimeout)
  exact h.2.2.2.2.2.1 1 (by decide) (by decide)
    (fun j hj => by
      have hj0 : j = 0 := by omega
      subst hj0; decide)

/-- C10: when resolution exhausts all attempts, the empty result is not
stored: `availableLanguagePairsCache` stays unset, so a subsequent call
performs at least one fresh fetch instead of serving the empty registry
from cache; and whatever is ever cached is a successful, nonempty parse
of a fetched document. -/
theorem c10_empty_result_not_cached (oracle oracle2 : Nat → FetchOutcome) :
    ((∀ j, j < 3 → attemptFails (oracle j) = true) →
      (getAvailableBergamotLanguagePairs none 3 oracle).cacheAfter = none ∧
      1 ≤ (getAvailableBergamotLanguagePairs
            (getAvailableBergamotLanguagePairs none 3 oracle).cacheAfter 3 oracle2).fetches) ∧
    (∀ p, (getAvailableBergamotLanguagePairs none 3 oracle).cacheAfter = some p →
      p ≠ [] ∧ ∃ k, k < 3 ∧ ∃ raw, oracle k = .ok raw ∧ p = parseRegistryPairs raw) := by
  constructor
  · intro hall
    have hc := (attemptsRun_allfail oracle 3 0 (fun j hj => by simpa using hall j hj)).2
    have hnone : (getAvailableBergamotLanguagePairs none 3 oracle).cacheAfter = none := by
      simpa [getAvailableBergamotLanguagePairs] using hc
    refine ⟨hnone, ?_⟩
    rw [hnone]
    simpa [getAvailableBergamotLanguagePairs] using
      attemptsRun_fetches_pos oracle2 3 0 (by omega)
  · intro p hp
    have h := attemptsRun_cache_some oracle 3 0 p
      (by simpa [getAvailableBergamotLanguagePairs] using hp)
    simpa using h

/-- Witness for C10: with every attempt failing, nothing is cached and
the subsequent call performs 3 fresh fetch attempts. -/
theorem c10_empty_result_not_cached_witness :
    (getAvailableBergamotLanguagePairs none 3 (fun _ => FetchOutcome.fail)).cacheAfter
      = none ∧
    1 ≤ (getAvailableBergamotLanguagePairs
          (getAvailableBergamotLanguagePairs none 3
            (fun _ => FetchOutcome.fail)).cacheAfter 3 (fun _ => FetchOutcome.fail)).fetches := by
  exact (c10_empty_result_not_cached (fun _ => FetchOutcome.fail)
    (fun _ => FetchOutcome.fail)).1 (fun j hj => by decide)

/-! ### Model Fetcher progress model

`CustomBacking` (translation.ts lines 438-956) reports progress through
`updateProgress(baseProgress, fileProgress, fileWeight)` (lines 470-485),
which computes `base + fileProgress * weight / 100`, rounds it
(`Math.round`, which is `⌊x + 1/2⌋` for nonnegative arguments), and
clamps to [0, 95]. Its throttle compares the stored last *value* (not a
timestamp) against `Date.now()`, so with any realistic clock every
update is delivered; see `progressDelivered_always`. -/

/-- `⌊x⌋` on ℚ in its kernel-reducible form (`num / den`). -/
def ratFloor (x : ℚ) : ℤ :=
  x.num / (x.den : ℤ)

theorem ratFloor_eq (x : ℚ) : ratFloor x = ⌊x⌋ :=
  Rat.floor_def.symm

/-- JS `Math.round` for the nonnegative values used here: `⌊x + 1/2⌋`. -/
def mathRound (x : ℚ) : ℤ :=
  ratFloor (x + 1 / 2)

theorem mathRound_eq_round (x : ℚ) : mathRound x = round x := by
  rw [mathRound, ratFloor_eq, round_eq]

/-- The clamped value computed by `updateProgress` (line 476):
`Math.min(95, Math.max(0, Math.round(base + fp * weight / 100)))`. -/
def clampedProgress (base fp weight : ℚ) : ℤ :=
  min 95 (max 0 (mathRound (base + fp * weight / 100)))

/-- The throttle test of `updateProgress` (line 480): fire when the value
changed or `now - lastProgressUpdate > 100`, where `lastProgressUpdate`
was last assigned the *clamped value* (line 482), not a timestamp. -/
def progressDelivered (last clamped now : ℤ) : Bool :=
  decide (clamped ≠ last) || decide (100 < now - last)

/-- Since `lastProgressUpdate` holds a value in [0, 95] and `now` is
`Date.now()` (milliseconds since 1970, always above 195), the throttle
always passes: every computed update is delivered to `onProgress`. -/
theorem progressDelivered_always (last clamped now : ℤ)
    (h0 : 0 ≤ last) (h95 : last ≤ 95) (hnow : 195 < now) :
    progressDelivered last clamped now = true := by
  have : 100 < now - last := by omega
  simp [progressDelivered, this]

/-- Role of one model artifact file, as classified from its URL by the
substring checks at lines 590-597. -/
inductive FileRole where
  | model
  | vocab
  | lex
  | other
deriving DecidableEq, Repr

/-- `fileWeight` (lines 587-597): 0.70/0.35 for the model file
(direct/pivot), 0.20/0.15 for vocabulary, 0.10/0.05 for the lexical
shortlist, 0.25 otherwise. `fetch` computes this value and prints it
(line 611) but passes `fileAllocation` to every `updateProgress` call. -/
def fileWeight (piv : Bool) : FileRole → ℚ
  | .model => if piv then 35/100 else 70/100
  | .vocab => if piv then 15/100 else 20/100
  | .lex => if piv then 5/100 else 10/100
  | .other => 25/100

/-- The pivot test of `loadModelRegistery` (lines 520-523): neither
endpoint is `en` and `data.models` has both `source-en` and `en-target`
keys. -/
def computeIsPivot (modelKeys : List String) (src trg : String) : Bool :=
  (src != pivotLang) && (trg != pivotLang) &&
    modelKeys.contains (src ++ "-" ++ pivotLang) &&
    modelKeys.contains (pivotLang ++ "-" ++ trg)

/-- `totalFilesEstimate` (line 527): 6 for a pivot pair, 3 for direct. -/
def totalFilesEstimate (piv : Bool) : Nat :=
  if piv then 6 else 3

/-- `progressRange` (line 602): file downloads span 5 % to 90 %. -/
def progressRange : ℚ := 85

/-- `baseProgress` when starting file number `i` (0-based), line 603:
`5 + (filesDownloaded / totalFilesEstimate) * progressRange`. -/
def baseProgress (i n : Nat) : ℚ :=
  5 + (i : ℚ) / (n : ℚ) * progressRange

/-- `fileAllocation = progressRange / totalFilesEstimate` (line 607). -/
def fileAllocation (n : Nat) : ℚ :=
  progressRange / (n : ℚ)

/-- JS `%` for nonnegative operands. -/
def jsMod (a b : ℚ) : ℚ :=
  a - b * (ratFloor (a / b) : ℚ)

/-- `fileProgress` inside the streaming read loop (line 718):
`Math.min(90, downloadedBytes / totalBytes * 100)`. -/
def streamFileProgress (bytes total : Nat) : ℚ :=
  min 90 ((bytes : ℚ) / (total : ℚ) * 100)

/-- The in-loop update gate (line 720):
`fileProgress % 5 < 0.1 || downloadedBytes % (50 * 1024) === 0`. -/
def streamUpdateDelivered (fp : ℚ) (bytes : Nat) : Bool :=
  decide (jsMod fp 5 < 1 / 10) || decide (bytes % 51200 = 0)

/-- The `fileProgress` values delivered inside the streaming read loop
(lines 707-724): after each received chunk the cumulative byte count is
turned into `streamFileProgress` and passed to `updateProgress` when the
gate passes. -/
def streamUpdates (total : Nat) : List Nat → Nat → List ℚ
  | [], _ => []
  | c :: cs, sofar =>
    let b := sofar + c
    let fp := streamFileProgress b total
    if streamUpdateDelivered fp b then fp :: streamUpdates total cs b
    else streamUpdates total cs b

/-- How one `CustomBacking.fetch` call proceeds for one file: served from
cache (lines 663-698), streamed with a declared `content-length`
(lines 700-763; the byte total is nonzero, since a zero or missing
`content-length` is falsy in JS and takes the fallback branch), or
fetched without a usable length (lines 764-793). `gz` says whether the
bytes carried the gzip magic / `.gz` suffix. -/
inductive FetchScenario where
  | cached (gz : Bool)
  | streamed (total : Nat) (chunks : List Nat) (gz : Bool)
  | noLength (gz : Bool)
deriving DecidableEq, Repr

/-- The `fileProgress` arguments passed to `updateProgress` during one
`fetch` call, in order: the start-of-file update (fp = 0, line 614), then
the path-specific updates, always ending at fp = 100: cached path
10/50/(80 when gzipped)/100 (lines 667-695), streamed path 5 (line 705),
the gated in-loop values, then (90 when gzipped and) 100 (lines 743-761),
no-length path 30/(70 when gzipped)/100 (lines 767-790). -/
def fetchFileProgressValues : FetchScenario → List ℚ
  | .cached gz => [0, 10, 50] ++ (if gz then [80] else []) ++ [100]
  | .streamed total chunks gz =>
    [0, 5] ++ streamUpdates total chunks 0 ++ (if gz then [90, 100] else [100])
  | .noLength gz => [0, 30] ++ (if gz then [70] else []) ++ [100]

/-- The in-stream values of a scenario (empty for non-streamed ones). -/
def scenarioStreamValues : FetchScenario → List ℚ
  | .streamed total chunks _ => streamUpdates total chunks 0
  | _ => []

/-- The value reported for file `i` of `n` at file progress `fp`: every
`updateProgress` call inside `fetch` passes `fileAllocation` as the
weight argument (lines 614, 667-669, 679-695, 705, 721, 743-747,
761-790). -/
def reportAt (n i : Nat) (fp : ℚ) : ℤ :=
  clampedProgress (baseProgress i n) fp (fileAllocation n)

/-- The progress values reported while fetching file number `i` of `n`.
The file's role determines `fileWeight` in the source, but that weight
only reaches `console.log`; the reported values use `fileAllocation`. -/
def fetchReports (n i : Nat) (role : FileRole) (sc : FetchScenario) : List ℤ :=
  match role with
  | _ => (fetchFileProgressValues sc).map (reportAt n i)

/-- Reports of a list of files starting at index `i`: `filesDownloaded`
is incremented once per completed file (lines 683-692, 750-758, 779-787). -/
def filesReports (n : Nat) : Nat → List (FileRole × FetchScenario) → List ℤ
  | _, [] => []
  | i, f :: fs => fetchReports n i f.1 f.2 ++ filesReports n (i + 1) fs

/-- All progress values delivered to `onProgress` during one fresh,
successful `loadBergamotModel` call: the registry prelude
(`updateProgress(0,0,0)` at line 499, the direct `onProgress(5)` at
line 973, `updateProgress(5,100,0)` at line 511 — all evaluating to 0,
5, 5), one `fetch` per file during the trial translation, then the
success trailer `onProgress(90)`, `onProgress(95)`, `onProgress(100)`
(lines 1077-1089). -/
def loadReports (piv : Bool) (files : List (FileRole × FetchScenario)) : List ℤ :=
  [0, 5, 5] ++ filesReports (totalFilesEstimate piv) 0 files ++ [90, 95, 100]

theorem round_le_round_q {x y : ℚ} (h : x ≤ y) : round x ≤ round y := by
  rw [round_eq, round_eq]
  exact Int.floor_le_floor (by linarith)

theorem mathRound_le_mathRound {x y : ℚ} (h : x ≤ y) : mathRound x ≤ mathRound y := by
  rw [mathRound_eq_round, mathRound_eq_round]
  exact round_le_round_q h

theorem mem_of_getLast?_eq {α : Type} {l : List α} {a : α}
    (h : l.getLast? = some a) : a ∈ l := by
  obtain ⟨hne, heq⟩ := List.mem_getLast?_eq_getLast (Option.mem_def.mpr h)
  exact heq ▸ List.getLast_mem hne

theorem clampedProgress_mono {base w fp₁ fp₂ : ℚ} (hw : 0 ≤ w) (h : fp₁ ≤ fp₂) :
    clampedProgress base fp₁ w ≤ clampedProgress base fp₂ w := by
  unfold clampedProgress
  have hmul : fp₁ * w ≤ fp₂ * w := mul_le_mul_of_nonneg_right h hw
  have harg : base + fp₁ * w / 100 ≤ base + fp₂ * w / 100 := by linarith
  exact min_le_min le_rfl (max_le_max le_rfl (mathRound_le_mathRound harg))

theorem clampedProgress_le_90 {base fp w : ℚ} (h : base + fp * w / 100 ≤ 90) :
    clampedProgress base fp w ≤ 90 := by
  unfold clampedProgress
  have h90 : mathRound (90 : ℚ) = 90 := by
    rw [mathRound_eq_round, round_eq]; norm_num
  have h1 : mathRound (base + fp * w / 100) ≤ 90 := h90 ▸ mathRound_le_mathRound h
  exact le_trans (min_le_right _ _) (max_le (by norm_num) h1)

theorem fileAllocation_nonneg (n : Nat) : 0 ≤ fileAllocation n := by
  unfold fileAllocation progressRange
  positivity

theorem baseProgress_succ {n : Nat} (hn : 0 < n) (i : Nat) :
    baseProgress i n + fileAllocation n = baseProgress (i + 1) n := by
  have hnq : (n : ℚ) ≠ 0 := Nat.cast_ne_zero.mpr (by omega)
  unfold baseProgress fileAllocation progressRange
  push_cast
  field_simp
  ring

theorem baseProgress_le_90 {i n : Nat} (hn : 0 < n) (h : i ≤ n) :
    baseProgress i n ≤ 90 := by
  have hnq : (0 : ℚ) < (n : ℚ) := by exact_mod_cast hn
  have hdiv : (i : ℚ) / (n : ℚ) ≤ 1 := by
    rw [div_le_one hnq]
    exact_mod_cast h
  unfold baseProgress progressRange
  nlinarith

theorem reportArg_le_90 {n i : Nat} (hn : 0 < n) (hin : i + 1 ≤ n) {fp : ℚ}
    (hfp : fp ≤ 100) :
    baseProgress i n + fp * fileAllocation n / 100 ≤ 90 := by
  have halloc := fileAllocation_nonneg n
  have h1 : fp * fileAllocation n ≤ 100 * fileAllocation n :=
    mul_le_mul_of_nonneg_right hfp halloc
  have h2 := baseProgress_succ hn i
  have h3 := baseProgress_le_90 hn hin
  linarith

theorem reportAt_boundary {n : Nat} (hn : 0 < n) (i : Nat) :
    reportAt n i 100 = reportAt n (i + 1) 0 := by
  unfold reportAt clampedProgress
  have h2 := baseProgress_succ hn i
  have h1 : baseProgress i n + 100 * fileAllocation n / 100 =
      baseProgress (i + 1) n + 0 * fileAllocation n / 100 := by
    field_simp
    linarith
  rw [h1]

theorem reportAt_zero (n : Nat) : reportAt n 0 0 = 5 := by
  unfold reportAt clampedProgress baseProgress
  have h5 : mathRound (5 : ℚ) = 5 := by
    rw [mathRound_eq_round, round_eq]; norm_num
  norm_num [h5]

theorem streamFileProgress_mono {b₁ b₂ : Nat} (total : Nat) (h : b₁ ≤ b₂) :
    streamFileProgress b₁ total ≤ streamFileProgress b₂ total := by
  unfold streamFileProgress
  rcases Nat.eq_zero_or_pos total with h0 | hpos
  · subst h0; simp
  · have ht : (0 : ℚ) < (total : ℚ) := by exact_mod_cast hpos
    have hb : (b₁ : ℚ) ≤ (b₂ : ℚ) := by exact_mod_cast h
    apply min_le_min le_rfl
    gcongr

theorem streamUpdates_props (total : Nat) :
    ∀ chunks sofar, List.Chain' (· ≤ ·) (streamUpdates total chunks sofar) ∧
      ∀ u ∈ streamUpdates total chunks sofar,
        streamFileProgress sofar total ≤ u ∧ u ≤ 90 := by
  intro chunks
  induction chunks with
  | nil => intro sofar; simp [streamUpdates]
  | cons c cs ih =>
    intro sofar
    obtain ⟨ihc, ihb⟩ := ih (sofar + c)
    have hmono : streamFileProgress sofar total ≤ streamFileProgress (sofar + c) total :=
      streamFileProgress_mono total (Nat.le_add_right _ _)
    have hfp90 : streamFileProgress (sofar + c) total ≤ 90 := min_le_left _ _
    simp only [streamUpdates]
    by_cases hg :
        streamUpdateDelivered (streamFileProgress (sofar + c) total) (sofar + c) = true
    · simp only [hg, if_true]
      refine ⟨List.chain'_cons'.mpr ⟨fun y hy => ?_, ihc⟩, fun u hu => ?_⟩
      · exact (ihb y (List.mem_of_mem_head? hy)).1
      · rcases List.mem_cons.mp hu with rfl | hu
        · exact ⟨hmono, hfp90⟩
        · exact ⟨le_trans hmono (ihb u hu).1, (ihb u hu).2⟩
    · simp only [eq_false_of_ne_true hg, if_false]
      exact ⟨ihc, fun u hu => ⟨le_trans hmono (ihb u hu).1, (ihb u hu).2⟩⟩

theorem fetchFileProgressValues_props (sc : FetchScenario)
    (h5 : ∀ u ∈ scenarioStreamValues sc, 5 ≤ u) :
    List.Chain' (· ≤ ·) (fetchFileProgressValues sc) ∧
    (∀ u ∈ fetchFileProgressValues sc, u ≤ 100) ∧
    (fetchFileProgressValues sc).head? = some 0 ∧
    (fetchFileProgressValues sc).getLast? = some 100 := by
  rcases sc with gz | ⟨total, chunks, gz⟩ | gz
  · cases gz <;>
      exact ⟨by norm_num [fetchFileProgressValues, List.chain'_cons],
        by norm_num [fetchFileProgressValues, List.forall_mem_cons], rfl, rfl⟩
  · obtain ⟨hchain, hb⟩ := streamUpdates_props total chunks 0
    have h5s : ∀ u ∈ streamUpdates total chunks 0, 5 ≤ u := by
      simpa [scenarioStreamValues] using h5
    have hb90 : ∀ u ∈ streamUpdates total chunks 0, u ≤ 90 := fun u hu => (hb u hu).2
    have hCne : (if gz then [(90 : ℚ), 100] else [100]) ≠ [] := by cases gz <;> simp
    have hChead : ∀ y ∈ (if gz then [(90 : ℚ), 100] else [100]).head?, 90 ≤ y := by
      cases gz <;> norm_num
    have hChain : List.Chain' (· ≤ ·) (if gz then [(90 : ℚ), 100] else [100]) := by
      cases gz <;> norm_num [List.chain'_cons]
    have hCbound : ∀ u ∈ (if gz then [(90 : ℚ), 100] else [100]), u ≤ 100 := by
      cases gz <;> norm_num
    refine ⟨?_, ?_, ?_, ?_⟩
    · show List.Chain' (· ≤ ·) ([0, 5] ++ (streamUpdates total chunks 0 ++ _))
      refine List.Chain'.append (by norm_num [List.chain'_cons])
        (List.Chain'.append hchain hChain ?_) ?_
      · intro x hx y hy
        exact le_trans (hb90 x (mem_of_getLast?_eq hx)) (hChead y hy)
      · intro x hx y hy
        have hx5 : (5 : ℚ) = x := by simpa using hx
        subst hx5
        rcases hsu : streamUpdates total chunks 0 with - | ⟨u₀, su⟩
        · rw [hsu] at hy
          simp only [List.nil_append] at hy
          exact le_trans (by norm_num) (hChead y hy)
        · rw [hsu] at hy
          simp only [List.cons_append, List.head?_cons, Option.mem_def,
            Option.some_inj] at hy
          subst hy
          exact h5s u₀ (by rw [hsu]; exact List.mem_cons_self _ _)
    · intro u hu
      have hu' : u ∈ ([0, 5] : List ℚ) ++
          (streamUpdates total chunks 0 ++ (if gz then [(90 : ℚ), 100] else [100])) := hu
      rcases List.mem_append.mp hu' with h01 | h2
      · have : u = 0 ∨ u = 5 := by simpa using h01
        rcases this with rfl | rfl <;> norm_num
      · rcases List.mem_append.mp h2 with hsu | hC
        · exact le_trans (hb90 u hsu) (by norm_num)
        · exact hCbound u hC
    · rfl
    · show ([(0 : ℚ), 5] ++ (streamUpdates total chunks 0 ++ _)).getLast? = some 100
      rw [List.getLast?_append_of_ne_nil _ (by simp [hCne]),
        List.getLast?_append_of_ne_nil _ hCne]
      cases gz <;> rfl
  · cases gz <;>
      exact ⟨by norm_num [fetchFileProgressValues, List.chain'_cons],
        by norm_num [fetchFileProgressValues, List.forall_mem_cons], rfl, rfl⟩

theorem fetchReports_props (n i : Nat) (role : FileRole) (sc : FetchScenario)
    (hn : 0 < n) (hin : i + 1 ≤ n)
    (h5 : ∀ u ∈ scenarioStreamValues sc, 5 ≤ u) :
    List.Chain' (· ≤ ·) (fetchReports n i role sc) ∧
    (∀ v ∈ fetchReports n i role sc, v ≤ 90) ∧
    (fetchReports n i role sc).head? = some (reportAt n i 0) ∧
    (fetchReports n i role sc).getLast? = some (reportAt n i 100) := by
  obtain ⟨hchain, hb, hh, hl⟩ := fetchFileProgressValues_props sc h5
  have halloc := fileAllocation_nonneg n
  have hrep : fetchReports n i role sc = (fetchFileProgressValues sc).map (reportAt n i) := by
    cases role <;> rfl
  rw [hrep]
  refine ⟨?_, ?_, ?_, ?_⟩
  · exact List.chain'_map_of_chain' _ (fun a b hab => clampedProgress_mono halloc hab) hchain
  · intro v hv
    obtain ⟨u, hu, rfl⟩ := List.mem_map.mp hv
    exact clampedProgress_le_90 (reportArg_le_90 hn hin (hb u hu))
  · rw [List.head?_map, hh]; rfl
  · rw [List.getLast?_map, hl]; rfl

theorem filesReports_props (n : Nat) (hn : 0 < n) :
    ∀ fs : List (FileRole × FetchScenario), ∀ i, i + fs.length ≤ n →
      (∀ f ∈ fs, ∀ u ∈ scenarioStreamValues f.2, 5 ≤ u) →
      List.Chain' (· ≤ ·) (filesReports n i fs) ∧
      (∀ v ∈ filesReports n i fs, v ≤ 90) ∧
      (fs = [] ∨ (filesReports n i fs).head? = some (reportAt n i 0)) := by
  intro fs
  induction fs with
  | nil => intro i _ _; simp [filesReports]
  | cons f fs ih =>
    intro i hlen h5
    obtain ⟨c1, b1, h1, l1⟩ := fetchReports_props n i f.1 f.2 hn (by simp at hlen; omega)
      (h5 f (List.mem_cons_self _ _))
    obtain ⟨c2, b2, hh2⟩ := ih (i + 1) (by simp at hlen ⊢; omega)
      (fun g hg => h5 g (List.mem_cons_of_mem _ hg))
    have hfr : filesReports n i (f :: fs) =
        fetchReports n i f.1 f.2 ++ filesReports n (i + 1) fs := rfl
    rw [hfr]
    refine ⟨?_, ?_, Or.inr ?_⟩
    · refine List.Chain'.append c1 c2 ?_
      intro x hx y hy
      rw [l1] at hx
      have hx' : reportAt n i 100 = x := by simpa using hx
      subst hx'
      rcases hh2 with hnil | hhead
      · subst hnil; simp [filesReports] at hy
      · rw [hhead] at hy
        have hy' : reportAt n (i + 1) 0 = y := by simpa using hy
        subst hy'
        exact le_of_eq (reportAt_boundary hn i)
    · intro v hv
      rcases List.mem_append.mp hv with h | h
      · exact b1 v h
      · exact b2 v h
    · have hne : fetchReports n i f.1 f.2 ≠ [] := by
        intro hcon
        rw [hcon] at h1
        simp at h1
      rw [List.head?_append_of_ne_nil _ hne, h1]

/-- C6 (amended): for a fresh successful load fetching exactly
`totalFilesEstimate` files, the delivered progress sequence is
monotonically non-decreasing *provided* every update delivered inside a
file's streaming read loop reports at least the 5 % start marker of its
file (the first byte-level update of a large file can otherwise dip
below the marker, see the counterexample), and its final value is
exactly 100; the total-files estimate used in the progress arithmetic is
6 for a pivot pair and 3 for a direct pair. -/
theorem c6_progress_monotone_and_final (piv : Bool)
    (files : List (FileRole × FetchScenario))
    (hlen : files.length = totalFilesEstimate piv)
    (h5 : ∀ f ∈ files, ∀ u ∈ scenarioStreamValues f.2, 5 ≤ u) :
    List.Chain' (· ≤ ·) (loadReports piv files) ∧
    (loadReports piv files).getLast? = some 100 ∧
    totalFilesEstimate true = 6 ∧ totalFilesEstimate false = 3 := by
  have hn : 0 < totalFilesEstimate piv := by cases piv <;> decide
  obtain ⟨cm, bm, hm⟩ := filesReports_props (totalFilesEstimate piv) hn files 0
    (by omega) h5
  have hTne : ([90, 95, 100] : List ℤ) ≠ [] := by simp
  refine ⟨?_, ?_, rfl, rfl⟩
  · show List.Chain' (· ≤ ·)
      ([0, 5, 5] ++ (filesReports (totalFilesEstimate piv) 0 files ++ [90, 95, 100]))
    refine List.Chain'.append (by norm_num [List.chain'_cons])
      (List.Chain'.append cm (by norm_num [List.chain'_cons]) ?_) ?_
    · intro x hx y hy
      have hy90 : (90 : ℤ) = y := by simpa using hy
      subst hy90
      exact bm x (mem_of_getLast?_eq hx)
    · intro x hx y hy
      have hx5 : (5 : ℤ) = x := by simpa using hx
      subst hx5
      rcases hm with hnil | hhead
      · subst hnil
        simp only [filesReports, List.nil_append] at hy
        have : (90 : ℤ) = y := by simpa using hy
        omega
      · rw [List.head?_append_of_ne_nil, hhead] at hy
        · have hy' : reportAt (totalFilesEstimate piv) 0 0 = y := by simpa using hy
          rw [← hy', reportAt_zero]
        · intro hcon
          rw [hcon] at hhead
          simp at hhead
  · show (([0, 5, 5] : List ℤ) ++
        (filesReports (totalFilesEstimate piv) 0 files ++ ([90, 95, 100] : List ℤ))).getLast?
      = some (100 : ℤ)
    rw [List.getLast?_append_of_ne_nil _ (by simp), List.getLast?_append_of_ne_nil _ hTne]
    rfl

/-- Witness for C6 at a concrete direct load (all three files cached):
the full report sequence is non-decreasing and ends at 100. -/
theorem c6_progress_monotone_and_final_witness :
    List.Chain' (· ≤ ·) (loadReports false
      [(FileRole.model, .cached false), (FileRole.vocab, .cached false),
       (FileRole.lex, .cached false)]) ∧
    (loadReports false
      [(FileRole.model, .cached false), (FileRole.vocab, .cached false),
       (FileRole.lex, .cached false)]).getLast? = some 100 := by
  have h := c6_progress_monotone_and_final false
    [(FileRole.model, .cached false), (FileRole.vocab, .cached false),
     (FileRole.lex, .cached false)]
    (by decide) (by decide)
  exact ⟨h.1, h.2.1⟩

theorem streamed_example_values :
    fetchFileProgressValues (.streamed 102400000 [65536, 102334464] false) =
      [0, 5, 8 / 125, 90, 100] := by
  have hfp1 : streamFileProgress (0 + 65536) 102400000 = 8 / 125 := by
    unfold streamFileProgress
    rw [min_eq_right] <;> norm_num
  have hfp2 : streamFileProgress (0 + 65536 + 102334464) 102400000 = 90 := by
    unfold streamFileProgress
    rw [min_eq_left]
    norm_num
  have hg1 : streamUpdateDelivered (8 / 125) (0 + 65536) = true := by
    unfold streamUpdateDelivered jsMod
    rw [ratFloor_eq]
    norm_num
  have hg2 : streamUpdateDelivered 90 (0 + 65536 + 102334464) = true := by
    unfold streamUpdateDelivered jsMod
    rw [ratFloor_eq]
    norm_num
  show ([0, 5] : List ℚ) ++ streamUpdates 102400000 [65536, 102334464] 0 ++ [100] = _
  rw [show streamUpdates 102400000 [65536, 102334464] 0 = [8 / 125, 90] by
    simp only [streamUpdates, hfp1, hg1, hfp2, hg2, if_true]]
  rfl

theorem streamed_example_reports :
    fetchReports 3 0 FileRole.model (.streamed 102400000 [65536, 102334464] false) =
      [5, 6, 5, 31, 33] := by
  have hr : fetchReports 3 0 FileRole.model (.streamed 102400000 [65536, 102334464] false)
      = (fetchFileProgressValues (.streamed 102400000 [65536, 102334464] false)).map
          (reportAt 3 0) := rfl
  rw [hr, streamed_example_values]
  unfold reportAt clampedProgress baseProgress fileAllocation progressRange
  simp only [List.map, mathRound_eq_round, round_eq]
  norm_num [min_def, max_def]

/-- C6 counterexample: a successful direct load whose first file is
100 MB with a declared content-length and whose first received chunk is
64 KiB delivers an in-loop update at file progress 0.064 % (it passes
the 5 %-granularity gate since 0.064 % 5 < 0.1): the reported sequence
for that file is [5, 6, 5, 31, 33] — it dips from 6 (the 5 % start
marker of the file) back to 5, so the progress delivered during this
successful load is not monotonically non-decreasing. -/
theorem c6_counterexample :
    fetchReports 3 0 FileRole.model (.streamed 102400000 [65536, 102334464] false) =
      [5, 6, 5, 31, 33] ∧
    ¬ List.Chain' (· ≤ ·) (loadReports false
      [(FileRole.model, .streamed 102400000 [65536, 102334464] false),
       (FileRole.vocab, .cached false),
       (FileRole.lex, .cached false)]) := by
  refine ⟨streamed_example_reports, fun h => ?_⟩
  have hsplit : loadReports false
      [(FileRole.model, .streamed 102400000 [65536, 102334464] false),
       (FileRole.vocab, .cached false),
       (FileRole.lex, .cached false)] =
      ([0, 5, 5] ++
        (fetchReports 3 0 FileRole.model (.streamed 102400000 [65536, 102334464] false) ++
          (fetchReports 3 1 FileRole.vocab (.cached false) ++
            (fetchReports 3 2 FileRole.lex (.cached false) ++ [])))) ++ [90, 95, 100] := rfl
  rw [hsplit] at h
  have h0 := h.left_of_append.right_of_append.left_of_append
  rw [streamed_example_reports] at h0
  norm_num [List.chain'_cons] at h0

/-- C8 (amended): `fetch` computes the role weights — 70 %/35 %
(direct/pivot) for the model file, 20 %/15 % for vocabulary, 10 %/5 %
for the lexical shortlist — but uses them only in its console
diagnostics; every value actually reported weights the current file by
the uniform `fileAllocation = 85 / totalFilesEstimate`, so the reported
sequence is independent of the file's role. -/
theorem c8_role_weight_only_logged :
    (∀ n i : Nat, ∀ sc : FetchScenario, ∀ role₁ role₂ : FileRole,
      fetchReports n i role₁ sc = fetchReports n i role₂ sc) ∧
    (∀ n i : Nat, ∀ role : FileRole, ∀ sc : FetchScenario,
      fetchReports n i role sc =
        (fetchFileProgressValues sc).map
          (fun fp => clampedProgress (baseProgress i n) fp (fileAllocation n))) ∧
    fileWeight false FileRole.model = 70 / 100 ∧
    fileWeight true FileRole.model = 35 / 100 ∧
    fileWeight false FileRole.vocab = 20 / 100 ∧
    fileWeight true FileRole.vocab = 15 / 100 ∧
    fileWeight false FileRole.lex = 10 / 100 ∧
    fileWeight true FileRole.lex = 5 / 100 := by
  refine ⟨fun n i sc r₁ r₂ => by cases r₁ <;> cases r₂ <;> rfl,
    fun n i role sc => by cases role <;> rfl, rfl, rfl, rfl, rfl, rfl, rfl⟩

/-- C8 counterexample: the values reported while downloading a model
file and a lexical-shortlist file of the same direct load (same slot,
same bytes) are identical — [5, 6, 5, 31, 33] either way — although
their computed role weights differ (0.70 vs 0.10): the role weight is
never applied to a reported value. -/
theorem c8_counterexample :
    fetchReports 3 0 FileRole.model (.streamed 102400000 [65536, 102334464] false) =
      fetchReports 3 0 FileRole.lex (.streamed 102400000 [65536, 102334464] false) ∧
    fetchReports 3 0 FileRole.lex (.streamed 102400000 [65536, 102334464] false) =
      [5, 6, 5, 31, 33] ∧
    fileWeight false FileRole.model ≠ fileWeight false FileRole.lex := by
  refine ⟨rfl, ?_, by norm_num [fileWeight]⟩
  rw [← streamed_example_reports]
  rfl

/-! ### RPC Transport: the worker message protocol of
`CustomBacking.loadWorker` (translation.ts lines 860-955)

`call(name, ...args)` assigns `id = ++serial` and records a pending
entry carrying a resolver pair and a callsite description; the worker
`message` listener correlates `{id, result}` / `{id, error}` responses
back to pending entries. -/

/-- The callsite description recorded by `call` (line 887):
`name(args.join(', '))` over the already-stringified arguments. -/
def callDescription (name : String) (args : List String) : String :=
  name ++ "(" ++ String.intercalate ", " args ++ ")"

/-- One entry of the `pending` map (lines 878-890): the id and the
recorded callsite message and local stack. -/
structure PendingCall where
  id : Nat
  desc : String
  stack : String
deriving DecidableEq, Repr

/-- The `serial` counter and `pending` map of one transport. -/
structure RpcState where
  serial : Nat
  pending : List PendingCall
deriving DecidableEq, Repr

/-- `call(name, ...args)` (lines 880-893): `id = ++serial`, then the
entry is recorded (a new JS `Map` key is appended in insertion order)
and `{id, name, args}` is posted to the worker. `stk` is the ambient
`new Error().stack`. -/
def rpcCall (st : RpcState) (name : String) (args : List String) (stk : String) :
    RpcState × Nat :=
  let id := st.serial + 1
  (⟨id, st.pending ++ [⟨id, callDescription name args, stk⟩]⟩, id)

/-- The error payload of a `{id, error}` response (lines 905-909). -/
structure RemoteError where
  message : String
  stack : Option String
deriving DecidableEq, Repr

/-- A worker response `{id, result}` or `{id, error}`; `error !==
undefined` selects the rejection path (line 905). -/
structure WorkerResponse where
  id : Nat
  result : Option String
  error : Option RemoteError
deriving DecidableEq, Repr

/-- How a correlated response settles its call. -/
inductive RpcOutcome where
  | resolved (result : Option String)
  | rejected (message : String) (stack : String)
deriving DecidableEq, Repr

/-- The worker `message` listener (lines 895-914): an id with no pending
entry is logged and dropped (line 897-900); otherwise the entry is
removed (line 903) and the call resolves with `result`, or rejects with
an error whose message is the remote message followed by
`" (response to <callsite>)"` and whose stack joins the remote and local
stacks (lines 905-913). -/
def handleWorkerMessage (pending : List PendingCall) (msg : WorkerResponse) :
    List PendingCall × Option RpcOutcome :=
  match pending.find? (fun e => e.id == msg.id) with
  | none => (pending, none)
  | some e =>
    let rest := pending.eraseP (fun e2 => e2.id == msg.id)
    match msg.error with
    | some err =>
      (rest, some (.rejected (err.message ++ " (response to " ++ e.desc ++ ")")
        (match err.stack with
         | some s => s ++ "\n" ++ e.stack
         | none => e.stack)))
    | none => (rest, some (.resolved msg.result))

/-! ### Loader Coordinator state machine

`loadBergamotModel`, `getBergamotTranslator` and
`cancelBergamotModelLoad` (lines 388-1108) manipulate two module-level
tables keyed by the pair key `"source-target"` (line 394):
`bergamotTranslators` (the translator cache, line 121) and
`activeLoaders` (the LoadRecord table holding each load's
`AbortController`, line 124). We model all activity for ONE fixed pair
as a small-step system. JS scheduling is single-threaded and
cooperative: one step is the code executed between two suspension
points, and a schedule picks which task resumes next.

Atomic steps of one `loadBergamotModel` call for a fresh pair:
* `start` — lines 1020-1033 plus the synchronous prefix of
  `getBergamotTranslator` (lines 394-434): a cache hit returns the
  cached handle without any trial translation; an existing LoadRecord
  sends this caller into the 100 ms poll loop (lines 407-415);
  otherwise the caller registers its LoadRecord (line 431) and suspends
  at the dynamic import (line 434).
* `importWait` resume — lines 436-976, the `finally` at 982-986, and
  lines 1036-1057: builds the backing and the translator, inserts the
  handle into the cache (line 968), has its LoadRecord deleted by the
  `finally`, and calls the trial translation
  `translate({text: 'test'})` (line 1057) whose file downloads suspend
  repeatedly.
* `trial` steps — each download step runs `checkAborted`
  (lines 488-492) against the *creator's* controller; an observed abort
  (or a failed trial) propagates to the catch at lines 1101-1106, which
  deletes the cache entry; a successful trial returns the handle.
* `pollWait` resume — lines 410-421, woken by the fixed
  `setTimeout(resolve, 100)`: a cache hit returns the shared handle
  (the caller then runs its own trial call on it); a vanished
  LoadRecord without a cache entry lets the caller register its own
  load; otherwise it sleeps another 100 ms.

`cancelBergamotModelLoad` (lines 994-1003) can run between any two
steps: if a LoadRecord exists it aborts that controller and deletes
both the LoadRecord and the cache entry; otherwise it does nothing.
The optional caller-supplied `AbortSignal` is not modelled (its `abort`
listener is removed in the same `finally`, line 985, before any
download starts). -/

/-- The shared module-level state for one language pair. The cache
entry records the handle and the pid of the caller that constructed it
(whose `AbortController` governs its downloads); `nextHandle` numbers
translator constructions and `creations` counts them — each
construction starts one underlying file-download sequence. -/
structure LoaderState where
  cache : Option (Nat × Nat)
  loaderPid : Option Nat
  aborted0 : Bool
  aborted1 : Bool
  nextHandle : Nat
  creations : Nat
deriving DecidableEq, Repr

/-- Whether the `AbortController` created by caller `pid` has fired. -/
def ctrlAborted (s : LoaderState) (pid : Nat) : Bool :=
  if pid = 0 then s.aborted0 else s.aborted1

/-- Fire caller `pid`'s `AbortController`. -/
def setAborted (s : LoaderState) (pid : Nat) : LoaderState :=
  if pid = 0 then { s with aborted0 := true } else { s with aborted1 := true }

/-- Program counter of one `loadBergamotModel` call. -/
inductive LoadPC where
  | start
  | importWait
  | pollWait (rounds : Nat)
  | trial (creator : Nat) (h : Nat) (dl : Nat)
  | doneOk (h : Nat)
  | doneErr (ab : Bool)
deriving DecidableEq, Repr

/-- One caller: its program counter and the sleep durations (ms) it has
awaited inside the poll loop. -/
structure LoadProc where
  pc : LoadPC
  sleeps : List Nat
deriving DecidableEq, Repr

/-- Run parameters: whether each caller's trial translation would
succeed, and how many suspension steps the downloads of a trial span. -/
structure LoaderCfg where
  trialOk0 : Bool
  trialOk1 : Bool
  dlSteps : Nat
deriving DecidableEq, Repr

def trialOk (cfg : LoaderCfg) (pid : Nat) : Bool :=
  if pid = 0 then cfg.trialOk0 else cfg.trialOk1

/-- One atomic step of caller `pid` (see the section comment for the
source lines each branch embeds). -/
def procStep (cfg : LoaderCfg) (pid : Nat) (s : LoaderState) (p : LoadProc) :
    LoaderState × LoadProc :=
  match p.pc with
  | .start =>
    match s.cache with
    | some hc => (s, { p with pc := .doneOk hc.1 })
    | none =>
      match s.loaderPid with
      | some _ => (s, { p with pc := .pollWait 0 })
      | none => ({ s with loaderPid := some pid }, { p with pc := .importWait })
  | .importWait =>
    let h := s.nextHandle
    let s2 : LoaderState :=
      ⟨some (h, pid), none, s.aborted0, s.aborted1, h + 1, s.creations + 1⟩
    (s2, { p with pc := .trial pid h cfg.dlSteps })
  | .pollWait k =>
    match s.cache with
    | some hc =>
      (s, { pc := .trial hc.2 hc.1 cfg.dlSteps, sleeps := p.sleeps ++ [100] })
    | none =>
      match s.loaderPid with
      | some _ => (s, { pc := .pollWait (k + 1), sleeps := p.sleeps ++ [100] })
      | none => ({ s with loaderPid := some pid },
          { pc := .importWait, sleeps := p.sleeps ++ [100] })
  | .trial creator h dl =>
    if ctrlAborted s creator then
      ({ s with cache := none }, { p with pc := .doneErr true })
    else if dl = 0 then
      if trialOk cfg pid then (s, { p with pc := .doneOk h })
      else ({ s with cache := none }, { p with pc := .doneErr false })
    else (s, { p with pc := .trial creator h (dl - 1) })
  | .doneOk _ => (s, p)
  | .doneErr _ => (s, p)

/-- `cancelBergamotModelLoad` (lines 994-1003): only when a LoadRecord
exists does it abort that controller and delete the LoadRecord and the
cache entry; otherwise it does nothing at all. -/
def cancelBergamotModelLoad (s : LoaderState) : LoaderState :=
  match s.loaderPid with
  | some pid => { setAborted s pid with loaderPid := none, cache := none }
  | none => s

def initLoader : LoaderState :=
  ⟨none, none, false, false, 0, 0⟩

def initProc : LoadProc :=
  ⟨.start, []⟩

/-- Events of the single-caller machine: a step of the one load call,
or a `cancelBergamotModelLoad` for the pair. -/
inductive EventA where
  | step
  | cancel
deriving DecidableEq, Repr

structure StateA where
  sh : LoaderState
  p : LoadProc
deriving DecidableEq, Repr

def stepA (cfg : LoaderCfg) (st : StateA) : EventA → StateA
  | .step =>
    let sp := procStep cfg 0 st.sh st.p
    ⟨sp.1, sp.2⟩
  | .cancel => ⟨cancelBergamotModelLoad st.sh, st.p⟩

/-- Run one fresh load (caller 0) under a schedule of steps and
cancellations. -/
def runA (cfg : LoaderCfg) (evs : List EventA) : StateA :=
  evs.foldl (stepA cfg) ⟨initLoader, initProc⟩

/-- The two-caller machine (no cancellation): `false` steps caller 0,
`true` steps caller 1. -/
structure StateB where
  sh : LoaderState
  p0 : LoadProc
  p1 : LoadProc
deriving DecidableEq, Repr

def stepB (cfg : LoaderCfg) (st : StateB) : Bool → StateB
  | true =>
    let sp := procStep cfg 1 st.sh st.p1
    ⟨sp.1, st.p0, sp.2⟩
  | false =>
    let sp := procStep cfg 0 st.sh st.p0
    ⟨sp.1, sp.2, st.p1⟩

/-- Run two concurrent `loadBergamotModel` calls for the same fresh
pair under an arbitrary interleaving. -/
def runB (cfg : LoaderCfg) (evs : List Bool) : StateB :=
  evs.foldl (stepB cfg) ⟨initLoader, initProc, initProc⟩

/-- Reachability invariant of the single-caller machine: the handle
enters the cache when the trial starts (before it succeeds) and is
removed exactly on failure; a LoadRecord exists only while the caller
is suspended at the dynamic import. -/
def InvA (st : StateA) : Prop :=
  st.sh.aborted1 = false ∧
  (match st.p.pc with
   | .start =>
     st.sh.cache = none ∧ st.sh.loaderPid = none ∧ st.sh.nextHandle = 0
   | .importWait =>
     st.sh.cache = none ∧ st.sh.nextHandle = 0 ∧
       (st.sh.loaderPid = some 0 ∨ st.sh.loaderPid = none)
   | .pollWait _ => False
   | .trial c h _ =>
     c = 0 ∧ h = 0 ∧ st.sh.cache = some (0, 0) ∧ st.sh.loaderPid = none
   | .doneOk h => st.sh.cache = some (h, 0) ∧ st.sh.loaderPid = none
   | .doneErr _ => st.sh.cache = none ∧ st.sh.loaderPid = none)

theorem stepA_preserves (cfg : LoaderCfg) (st : StateA) (e : EventA)
    (h : InvA st) : InvA (stepA cfg st e) := by
  obtain ⟨hab1, hpc⟩ := h
  cases e with
  | cancel =>
    rcases hl : st.sh.loaderPid with - | pid
    · have hnoop : cancelBergamotModelLoad st.sh = st.sh := by
        simp [cancelBergamotModelLoad, hl]
      simpa only [stepA, hnoop] using And.intro hab1 hpc
    · rcases hp : st.p.pc with - | - | k | ⟨c, hh, dl⟩ | hh | b
      · simp only [hp] at hpc
        exact absurd hl (by simp [hpc.2.1])
      · simp only [hp] at hpc
        obtain ⟨hc, hn, hor⟩ := hpc
        have hpid : pid = 0 := by
          rcases hor with h0 | h0 <;> rw [h0] at hl <;> simp_all
        subst hpid
        constructor
        · simp [stepA, cancelBergamotModelLoad, hl, setAborted, hab1]
        · rw [show (stepA cfg st .cancel).p = st.p from rfl, hp]
          simp [stepA, cancelBergamotModelLoad, hl, setAborted, hn]
      · simp only [hp] at hpc
      · simp only [hp] at hpc
        exact absurd hl (by simp [hpc.2.2.2])
      · simp only [hp] at hpc
        exact absurd hl (by simp [hpc.2])
      · simp only [hp] at hpc
        exact absurd hl (by simp [hpc.2])
  | step =>
    rcases hp : st.p.pc with - | - | k | ⟨c, hh, dl⟩ | hh | b
    · simp only [hp] at hpc
      obtain ⟨hc, hl, hn⟩ := hpc
      constructor
      · simpa [stepA, procStep, hp, hc, hl] using hab1
      · simp [stepA, procStep, hp, hc, hl, InvA, hn]
    · simp only [hp] at hpc
      obtain ⟨hc, hn, hor⟩ := hpc
      constructor
      · simpa [stepA, procStep, hp] using hab1
      · simp [stepA, procStep, hp, hn]
    · simp only [hp] at hpc
    · simp only [hp] at hpc
      obtain ⟨hc0, hh0, hc, hl⟩ := hpc
      subst hc0; subst hh0
      by_cases habt : ctrlAborted st.sh 0 = true
      · constructor
        · simpa [stepA, procStep, hp, habt] using hab1
        · simp [stepA, procStep, hp, habt, hl]
      · have habt' : ctrlAborted st.sh 0 = false := by
          simpa using habt
        by_cases hdl : dl = 0
        · subst hdl
          by_cases hok : trialOk cfg 0 = true
          · constructor
            · simpa [stepA, procStep, hp, habt', hok] using hab1
            · simp [stepA, procStep, hp, habt', hok, hc, hl]
          · have hok' : trialOk cfg 0 = false := by simpa using hok
            constructor
            · simpa [stepA, procStep, hp, habt', hok'] using hab1
            · simp [stepA, procStep, hp, habt', hok', hl]
        · constructor
          · simpa [stepA, procStep, hp, habt', hdl] using hab1
          · simp [stepA, procStep, hp, habt', hdl, hc, hl]
    · simp only [hp] at hpc
      constructor
      · simpa [stepA, procStep, hp] using hab1
      · simpa [stepA, procStep, hp] using hpc
    · simp only [hp] at hpc
      constructor
      · simpa [stepA, procStep, hp] using hab1
      · simpa [stepA, procStep, hp] using hpc

theorem invA_run (cfg : LoaderCfg) (evs : List EventA) : InvA (runA cfg evs) := by
  have hinit : InvA ⟨initLoader, initProc⟩ := by
    constructor
    · rfl
    · exact ⟨rfl, rfl, rfl⟩
  have hgen : ∀ l : List EventA, ∀ st, InvA st → InvA (l.foldl (stepA cfg) st) := by
    intro l
    induction l with
    | nil => intro st h; exact h
    | cons e l ih => intro st h; exact ih _ (stepA_preserves cfg st e h)
  exact hgen evs _ hinit

/-- C1 counterexample: two steps into a fresh load (register the
LoadRecord, then resume from the import), the handle is already
resident in the translator cache while the trial translation is still
pending (`.trial` with its downloads not yet finished) — the insertion
at line 968 happens before the trial at line 1057, refuting "the handle
is inserted into the cache only after the trial translation succeeds,
never before". -/
theorem c1_counterexample :
    (runA ⟨true, true, 2⟩ [.step, .step]).sh.cache = some (0, 0) ∧
    (runA ⟨true, true, 2⟩ [.step, .step]).p.pc = .trial 0 0 2 := by
  decide

/-- C1 (amended): the handle is inserted into the cache when the trial
translation starts, i.e. it is already cache-resident during the whole
trial; after the load settles, the cache holds the handle exactly when
the load completed successfully — on a failed or cancelled load the
entry has been removed. -/
theorem c1_cache_residency (cfg : LoaderCfg) (evs : List EventA) :
    (∀ c h dl, (runA cfg evs).p.pc = .trial c h dl →
      (runA cfg evs).sh.cache = some (h, 0)) ∧
    (∀ h, (runA cfg evs).p.pc = .doneOk h →
      (runA cfg evs).sh.cache = some (h, 0)) ∧
    (∀ b, (runA cfg evs).p.pc = .doneErr b →
      (runA cfg evs).sh.cache = none) := by
  obtain ⟨-, hpc⟩ := invA_run cfg evs
  refine ⟨fun c h dl hp => ?_, fun h hp => ?_, fun b hp => ?_⟩ <;>
    simp only [hp] at hpc
  · rcases hpc with ⟨-, rfl, hc, -⟩
    exact hc
  · exact hpc.1
  · exact hpc.1

/-- Witness for C1 (amended): a full successful run ends `doneOk` with
the handle cached. -/
theorem c1_cache_residency_witness :
    (runA ⟨true, true, 1⟩ [.step, .step, .step, .step]).sh.cache = some (0, 0) := by
  exact (c1_cache_residency ⟨true, true, 1⟩ [.step, .step, .step, .step]).2.1 0 (by decide)

/-- C4: evaluation at the failing input. Two steps into a fresh load
the trial-translation downloads are in flight and the LoadRecord is
already gone (deleted by the `finally` when `getBergamotTranslator`
returned, before any model file download began). Invoking
`cancelBergamotModelLoad` at that point finds no LoadRecord and changes
nothing; the load then completes successfully and the handle stays
cached — instead of failing with an abort kind and leaving both tables
empty as claimed. -/
theorem c4_cancel_mid_download_noop :
    (runA ⟨true, true, 2⟩ [.step, .step]).p.pc = .trial 0 0 2 ∧
    (runA ⟨true, true, 2⟩ [.step, .step]).sh.loaderPid = none ∧
    runA ⟨true, true, 2⟩ [.step, .step, .cancel] = runA ⟨true, true, 2⟩ [.step, .step] ∧
    (runA ⟨true, true, 2⟩ [.step, .step, .cancel, .step, .step, .step]).p.pc
      = .doneOk 0 ∧
    (runA ⟨true, true, 2⟩ [.step, .step, .cancel, .step, .step, .step]).sh.cache
      = some (0, 0) := by
  decide

/-- C7 counterexample: after a load has completed (ready handle cached,
no load in flight) `cancelBergamotModelLoad` leaves the cache entry in
place — refuting "after it returns the translator cache contains no
entry for that pair, including when a ready handle is cached for the
pair with no load in flight". -/
theorem c7_counterexample :
    (runA ⟨true, true, 0⟩ [.step, .step, .step]).p.pc = .doneOk 0 ∧
    (runA ⟨true, true, 0⟩ [.step, .step, .step]).sh.loaderPid = none ∧
    (runA ⟨true, true, 0⟩ [.step, .step, .step, .cancel]).sh.cache = some (0, 0) := by
  decide

/-- C7 (amended): `cancelBergamotModelLoad` is idempotent and safe on a
pair with no active load (a no-op there); after it returns the
LoadRecord table has no entry for the pair, and when a load was active
both its LoadRecord and the cache entry are removed — but a ready
cached handle with no load in flight is not removed. -/
theorem c7_cancel_contract (s : LoaderState) :
    cancelBergamotModelLoad (cancelBergamotModelLoad s) = cancelBergamotModelLoad s ∧
    (s.loaderPid = none → cancelBergamotModelLoad s = s) ∧
    (cancelBergamotModelLoad s).loaderPid = none ∧
    (∀ pid, s.loaderPid = some pid → (cancelBergamotModelLoad s).cache = none) := by
  rcases hl : s.loaderPid with - | pid
  · simp [cancelBergamotModelLoad, hl]
  · by_cases hpid : pid = 0
    · subst hpid
      refine ⟨?_, by simp [hl], ?_, fun q hq => ?_⟩ <;>
        simp [cancelBergamotModelLoad, hl, setAborted]
    · refine ⟨?_, by simp [hl], ?_, fun q hq => ?_⟩ <;>
        simp [cancelBergamotModelLoad, hl, setAborted, hpid]

/-- Witness for C7 (amended): a ready cached handle with no load in
flight survives `cancelBergamotModelLoad`; an active load's cache entry
is removed. -/
theorem c7_cancel_contract_witness :
    cancelBergamotModelLoad ⟨some (0, 0), none, false, false, 1, 1⟩ =
      ⟨some (0, 0), none, false, false, 1, 1⟩ ∧
    (cancelBergamotModelLoad ⟨some (0, 0), some 0, false, false, 1, 1⟩).cache = none := by
  exact ⟨(c7_cancel_contract _).2.1 rfl, (c7_cancel_contract _).2.2.2 0 rfl⟩

/-- Per-caller part of the two-caller invariant: every poll sleep is
the fixed 100 ms, a caller suspended at the import owns the LoadRecord
with an empty cache, a polling caller never sees both tables empty, and
a caller in (or past) its trial has the handle it is testing in the
cache. -/
def procInv (sh : LoaderState) (pid : Nat) (p : LoadProc) : Prop :=
  (∀ d ∈ p.sleeps, d = 100) ∧
  (match p.pc with
   | .start => True
   | .importWait => sh.loaderPid = some pid ∧ sh.cache = none
   | .pollWait _ => sh.loaderPid ≠ none ∨ sh.cache ≠ none
   | .trial c h _ => sh.cache = some (h, c)
   | .doneOk h => ∃ c, sh.cache = some (h, c)
   | .doneErr _ => False)

/-- Invariant of two concurrent loads for the same fresh pair with
successful trials and no cancellation: at most one translator is ever
constructed, and the cache only ever holds handle 0. -/
def InvB (st : StateB) : Prop :=
  st.sh.aborted0 = false ∧ st.sh.aborted1 = false ∧
  st.sh.nextHandle = st.sh.creations ∧ st.sh.creations ≤ 1 ∧
  (st.sh.cache = none → st.sh.creations = 0) ∧
  (∀ h c, st.sh.cache = some (h, c) → h = 0 ∧ st.sh.creations = 1) ∧
  (∀ i, st.sh.loaderPid = some i →
    (i = 0 ∧ st.p0.pc = .importWait) ∨ (i = 1 ∧ st.p1.pc = .importWait)) ∧
  procInv st.sh 0 st.p0 ∧ procInv st.sh 1 st.p1


/-- A non-stepping caller's `procInv` survives a shared-state change
that starts from an empty cache, does not own that caller's LoadRecord,
and leaves at least one of the two tables nonempty. -/
theorem procInv_stable {sh sh' : LoaderState} {pid : Nat} {p : LoadProc}
    (hp : procInv sh pid p)
    (hcold : sh.cache = none)
    (hlneq : sh.loaderPid ≠ some pid)
    (hnew : sh'.loaderPid ≠ none ∨ sh'.cache ≠ none) :
    procInv sh' pid p := by
  obtain ⟨hsleep, hm⟩ := hp
  refine ⟨hsleep, ?_⟩
  rcases hpc : p.pc with - | - | k | ⟨c, hh, dl⟩ | hh | b
  · simp only [hpc]
  · simp only [hpc] at hm
    exact absurd hm.1 hlneq
  · simpa only [hpc] using hnew
  · simp only [hpc] at hm
    rw [hcold] at hm
    exact absurd hm (by simp)
  · simp only [hpc] at hm
    obtain ⟨c, hc2⟩ := hm
    rw [hcold] at hc2
    exact absurd hc2 (by simp)
  · simp only [hpc] at hm

/-- When the LoadRecord exists while caller 0 is not at the import, it
must belong to caller 1. -/
theorem loaderClause0 {st : StateB}
    (hlp : ∀ i, st.sh.loaderPid = some i →
      (i = 0 ∧ st.p0.pc = .importWait) ∨ (i = 1 ∧ st.p1.pc = .importWait))
    (hnp : st.p0.pc ≠ .importWait) :
    ∀ i, st.sh.loaderPid = some i → i = 1 ∧ st.p1.pc = .importWait := by
  intro i hi
  rcases hlp i hi with ⟨-, hx⟩ | hx
  · exact absurd hx hnp
  · exact hx

/-- When the LoadRecord exists while caller 1 is not at the import, it
must belong to caller 0. -/
theorem loaderClause1 {st : StateB}
    (hlp : ∀ i, st.sh.loaderPid = some i →
      (i = 0 ∧ st.p0.pc = .importWait) ∨ (i = 1 ∧ st.p1.pc = .importWait))
    (hnp : st.p1.pc ≠ .importWait) :
    ∀ i, st.sh.loaderPid = some i → i = 0 ∧ st.p0.pc = .importWait := by
  intro i hi
  rcases hlp i hi with hx | ⟨-, hx⟩
  · exact hx
  · exact absurd hx hnp

theorem stepB_preserves (cfg : LoaderCfg) (hok0 : cfg.trialOk0 = true)
    (hok1 : cfg.trialOk1 = true) (st : StateB) (who : Bool)
    (h : InvB st) : InvB (stepB cfg st who) := by
  obtain ⟨hab0, hab1, hnh, hcr, hcn, hcs, hlp, ⟨hs0, hm0⟩, hs1, hm1⟩ := h
  cases who
  · -- caller 0 steps
    rcases hp : st.p0.pc with - | - | k | ⟨c, hh, dl⟩ | hh | b
    · -- start
      rcases hc : st.sh.cache with - | hcch
      · rcases hl : st.sh.loaderPid with - | j
        · -- register a LoadRecord and suspend at the import
          simp only [stepB, procStep, hp, hc, hl]
          refine ⟨by simpa using hab0, by simpa using hab1, by simpa using hnh,
            by simpa using hcr, by exact fun _ => hcn hc, by simp,
            ?_, ⟨hs0, ⟨rfl, rfl⟩⟩, ?_⟩
          · intro i hi
            simp only [Option.some_inj] at hi
            exact Or.inl ⟨hi.symm, rfl⟩
          · exact procInv_stable ⟨hs1, hm1⟩ hc (by simp [hl]) (by simp)
        · -- an existing LoadRecord: enter the poll loop
          simp only [stepB, procStep, hp, hc, hl]
          exact ⟨hab0, hab1, hnh, hcr, hcn, hcs,
            fun i hi => Or.inr (loaderClause0 hlp (by simp [hp]) i hi),
            ⟨hs0, Or.inl (by simp [hl])⟩, hs1, hm1⟩
      · -- cache hit: return the cached handle without a trial
        simp only [stepB, procStep, hp, hc]
        exact ⟨hab0, hab1, hnh, hcr, hcn, hcs,
          fun i hi => Or.inr (loaderClause0 hlp (by simp [hp]) i hi),
          ⟨hs0, ⟨hcch.2, by simpa using hc⟩⟩, hs1, hm1⟩
    · -- importWait: construct the translator, insert the cache entry,
      -- drop the LoadRecord, start the trial
      simp only [hp] at hm0
      obtain ⟨hl, hc⟩ := hm0
      have hcr0 : st.sh.creations = 0 := hcn hc
      have hnh0 : st.sh.nextHandle = 0 := by omega
      simp only [stepB, procStep, hp, hnh0]
      refine ⟨by simpa using hab0, by simpa using hab1, by simp [hcr0],
        by simp [hcr0], by simp, ?_, by simp,
        ⟨hs0, rfl⟩, ?_⟩
      · intro h2 c2 hx
        simp only [Option.some_inj, Prod.mk.injEq] at hx
        exact ⟨hx.1.symm, by simp [hcr0]⟩
      · exact procInv_stable ⟨hs1, hm1⟩ hc (by simp [hl]) (by simp)
    · -- pollWait: woken by the 100 ms timer
      simp only [hp] at hm0
      rcases hc : st.sh.cache with - | hcch
      · rcases hl : st.sh.loaderPid with - | j
        · rw [hc, hl] at hm0
          rcases hm0 with hm0 | hm0 <;> exact absurd rfl hm0
        · simp only [stepB, procStep, hp, hc, hl]
          refine ⟨hab0, hab1, hnh, hcr, hcn, hcs,
            fun i hi => Or.inr (loaderClause0 hlp (by simp [hp]) i hi),
            ⟨?_, Or.inl (by simp [hl])⟩, hs1, hm1⟩
          intro d hd
          rcases List.mem_append.mp hd with hd | hd
          · exact hs0 d hd
          · simpa using hd
      · simp only [stepB, procStep, hp, hc]
        refine ⟨hab0, hab1, hnh, hcr, hcn, hcs,
          fun i hi => Or.inr (loaderClause0 hlp (by simp [hp]) i hi),
          ⟨?_, by simpa using hc⟩, hs1, hm1⟩
        intro d hd
        rcases List.mem_append.mp hd with hd | hd
        · exact hs0 d hd
        · simpa using hd
    · -- trial: download steps, then the trial settles
      simp only [hp] at hm0
      have habt : ctrlAborted st.sh c = false := by
        unfold ctrlAborted
        rw [hab0, hab1, ite_self]
      by_cases hdl : dl = 0
      · subst hdl
        have hok : trialOk cfg 0 = true := by simpa [trialOk] using hok0
        simp [stepB, procStep, hp, habt, hok]
        exact ⟨hab0, hab1, hnh, hcr, hcn, hcs,
          fun i hi => Or.inr (loaderClause0 hlp (by simp [hp]) i hi),
          ⟨hs0, ⟨c, hm0⟩⟩, hs1, hm1⟩
      · simp [stepB, procStep, hp, habt, hdl]
        exact ⟨hab0, hab1, hnh, hcr, hcn, hcs,
          fun i hi => Or.inr (loaderClause0 hlp (by simp [hp]) i hi),
          ⟨hs0, hm0⟩, hs1, hm1⟩
    · -- doneOk: absorbing
      have hid : stepB cfg st false = st := by
        simp [stepB, procStep, hp]
      rw [hid]
      exact ⟨hab0, hab1, hnh, hcr, hcn, hcs, hlp, ⟨hs0, hm0⟩, hs1, hm1⟩
    · -- doneErr: unreachable
      simp only [hp] at hm0
  · -- caller 1 steps (mirror)
    rcases hp : st.p1.pc with - | - | k | ⟨c, hh, dl⟩ | hh | b
    · rcases hc : st.sh.cache with - | hcch
      · rcases hl : st.sh.loaderPid with - | j
        · simp only [stepB, procStep, hp, hc, hl]
          refine ⟨by simpa using hab0, by simpa using hab1, by simpa using hnh,
            by simpa using hcr, by exact fun _ => hcn hc, by simp,
            ?_, ?_, ⟨hs1, ⟨rfl, rfl⟩⟩⟩
          · intro i hi
            simp only [Option.some_inj] at hi
            exact Or.inr ⟨hi.symm, rfl⟩
          · exact procInv_stable ⟨hs0, hm0⟩ hc (by simp [hl]) (by simp)
        · simp only [stepB, procStep, hp, hc, hl]
          exact ⟨hab0, hab1, hnh, hcr, hcn, hcs,
            fun i hi => Or.inl (loaderClause1 hlp (by simp [hp]) i hi),
            ⟨hs0, hm0⟩, hs1, Or.inl (by simp [hl])⟩
      · simp only [stepB, procStep, hp, hc]
        exact ⟨hab0, hab1, hnh, hcr, hcn, hcs,
          fun i hi => Or.inl (loaderClause1 hlp (by simp [hp]) i hi),
          ⟨hs0, hm0⟩, hs1, ⟨hcch.2, by simpa using hc⟩⟩
    · simp only [hp] at hm1
      obtain ⟨hl, hc⟩ := hm1
      have hcr0 : st.sh.creations = 0 := hcn hc
      have hnh0 : st.sh.nextHandle = 0 := by omega
      simp only [stepB, procStep, hp, hnh0]
      refine ⟨by simpa using hab0, by simpa using hab1, by simp [hcr0],
        by simp [hcr0], by simp, ?_, by simp,
        ?_, ⟨hs1, rfl⟩⟩
      · intro h2 c2 hx
        simp only [Option.some_inj, Prod.mk.injEq] at hx
        exact ⟨hx.1.symm, by simp [hcr0]⟩
      · exact procInv_stable ⟨hs0, hm0⟩ hc (by simp [hl]) (by simp)
    · simp only [hp] at hm1
      rcases hc : st.sh.cache with - | hcch
      · rcases hl : st.sh.loaderPid with - | j
        · rw [hc, hl] at hm1
          rcases hm1 with hm1 | hm1 <;> exact absurd rfl hm1
        · simp only [stepB, procStep, hp, hc, hl]
          refine ⟨hab0, hab1, hnh, hcr, hcn, hcs,
            fun i hi => Or.inl (loaderClause1 hlp (by simp [hp]) i hi),
            ⟨hs0, hm0⟩, ?_, Or.inl (by simp [hl])⟩
          intro d hd
          rcases List.mem_append.mp hd with hd | hd
          · exact hs1 d hd
          · simpa using hd
      · simp only [stepB, procStep, hp, hc]
        refine ⟨hab0, hab1, hnh, hcr, hcn, hcs,
          fun i hi => Or.inl (loaderClause1 hlp (by simp [hp]) i hi),
          ⟨hs0, hm0⟩, ?_, by simpa using hc⟩
        intro d hd
        rcases List.mem_append.mp hd with hd | hd
        · exact hs1 d hd
        · simpa using hd
    · simp only [hp] at hm1
      have habt : ctrlAborted st.sh c = false := by
        unfold ctrlAborted
        rw [hab0, hab1, ite_self]
      by_cases hdl : dl = 0
      · subst hdl
        have hok : trialOk cfg 1 = true := by simpa [trialOk] using hok1
        simp [stepB, procStep, hp, habt, hok]
        exact ⟨hab0, hab1, hnh, hcr, hcn, hcs,
          fun i hi => Or.inl (loaderClause1 hlp (by simp [hp]) i hi),
          ⟨hs0, hm0⟩, hs1, ⟨c, hm1⟩⟩
      · simp [stepB, procStep, hp, habt, hdl]
        exact ⟨hab0, hab1, hnh, hcr, hcn, hcs,
          fun i hi => Or.inl (loaderClause1 hlp (by simp [hp]) i hi),
          ⟨hs0, hm0⟩, hs1, hm1⟩
    · have hid : stepB cfg st true = st := by
        simp [stepB, procStep, hp]
      rw [hid]
      exact ⟨hab0, hab1, hnh, hcr, hcn, hcs, hlp, ⟨hs0, hm0⟩, hs1, hm1⟩
    · simp only [hp] at hm1

theorem invB_run (cfg : LoaderCfg) (hok0 : cfg.trialOk0 = true)
    (hok1 : cfg.trialOk1 = true) (evs : List Bool) : InvB (runB cfg evs) := by
  have hinit : InvB ⟨initLoader, initProc, initProc⟩ := by
    refine ⟨rfl, rfl, rfl, by simp [initLoader], fun _ => rfl, fun h c hx => ?_,
      fun i hx => ?_, ⟨by simp [initProc], trivial⟩, by simp [initProc], trivial⟩
    · exact absurd hx (by simp [initLoader])
    · exact absurd hx (by simp [initLoader])
  have hgen : ∀ l : List Bool, ∀ st, InvB st → InvB (l.foldl (stepB cfg) st) := by
    intro l
    induction l with
    | nil => intro st h; exact h
    | cons e l ih => intro st h; exact ih _ (stepB_preserves cfg hok0 hok1 st e h)
  exact hgen evs _ hinit

/-- C5: under any interleaving of two `loadBergamotModel` calls for the
same never-before-loaded pair (both trials succeeding, no
cancellation), at most one translator is ever constructed — i.e. at most
one underlying file-download sequence runs, the second caller waits
instead of starting a second load — every wait the poll loop takes is
the fixed 100 ms `setTimeout`, and whenever both callers have completed
they have observed the same handle, which is the one cached, and
exactly one construction happened. -/
theorem c5_concurrent_dedup (cfg : LoaderCfg) (hok0 : cfg.trialOk0 = true)
    (hok1 : cfg.trialOk1 = true) (evs : List Bool) :
    (runB cfg evs).sh.creations ≤ 1 ∧
    (∀ d ∈ (runB cfg evs).p0.sleeps, d = 100) ∧
    (∀ d ∈ (runB cfg evs).p1.sleeps, d = 100) ∧
    (∀ h g, (runB cfg evs).p0.pc = .doneOk h → (runB cfg evs).p1.pc = .doneOk g →
      h = g ∧ (∃ c, (runB cfg evs).sh.cache = some (h, c)) ∧
        (runB cfg evs).sh.creations = 1) := by
  obtain ⟨-, -, -, hcr, -, hcs, -, ⟨hs0, hm0⟩, hs1, hm1⟩ := invB_run cfg hok0 hok1 evs
  refine ⟨hcr, hs0, hs1, fun h g hp0 hp1 => ?_⟩
  simp only [hp0] at hm0
  simp only [hp1] at hm1
  obtain ⟨c0, hc0⟩ := hm0
  obtain ⟨c1, hc1⟩ := hm1
  have hh0 := hcs h c0 hc0
  have hg0 := hcs g c1 hc1
  exact ⟨by omega, ⟨c0, hc0⟩, hh0.2⟩

/-- Witness for C5: a concrete interleaving in which caller 0 loads and
caller 1 arrives afterwards; both finish with handle 0, one
construction. -/
theorem c5_concurrent_dedup_witness :
    (0 : Nat) = 0 ∧
    (∃ c, (runB ⟨true, true, 1⟩ [false, false, false, false, true]).sh.cache
      = some (0, c)) ∧
    (runB ⟨true, true, 1⟩ [false, false, false, false, true]).sh.creations = 1 := by
  exact (c5_concurrent_dedup ⟨true, true, 1⟩ rfl rfl
    [false, false, false, false, true]).2.2.2 0 0 (by decide) (by decide)

/-- C9: an RPC response whose id has no pending entry is ignored — the
pending table is unchanged and no call resolves or rejects; a response
carrying an error removes exactly its entry and rejects with a message
that contains the remote error text (as a prefix) and the originating
call's description (as an infix); and the recorded description is the
call name with its stringified arguments joined by ", ". -/
theorem c9_rpc_response_handling :
    (∀ pending : List PendingCall, ∀ msg : WorkerResponse,
      pending.find? (fun e => e.id == msg.id) = none →
      handleWorkerMessage pending msg = (pending, none)) ∧
    (∀ pending : List PendingCall, ∀ msg : WorkerResponse, ∀ e err,
      pending.find? (fun e2 => e2.id == msg.id) = some e →
      msg.error = some err →
      ∃ m stk,
        handleWorkerMessage pending msg =
          (pending.eraseP (fun e2 => e2.id == msg.id), some (.rejected m stk)) ∧
        err.message.data <+: m.data ∧ e.desc.data <:+: m.data) ∧
    (∀ name : String, ∀ args : List String,
      callDescription name args = name ++ "(" ++ String.intercalate ", " args ++ ")") ∧
    (∀ st : RpcState, ∀ name args stk,
      (rpcCall st name args stk).1.pending =
        st.pending ++ [⟨st.serial + 1, callDescription name args, stk⟩] ∧
      (rpcCall st name args stk).1.serial = st.serial + 1) := by
  refine ⟨fun pending msg hf => ?_, fun pending msg e err hf he => ?_,
    fun name args => rfl, fun st name args stk => ⟨rfl, rfl⟩⟩
  · unfold handleWorkerMessage
    rw [hf]
  · refine ⟨err.message ++ " (response to " ++ e.desc ++ ")",
      match err.stack with
      | some s => s ++ "\n" ++ e.stack
      | none => e.stack, ?_, ?_, ?_⟩
    · unfold handleWorkerMessage
      rw [hf, he]
    · exact ⟨(" (response to " ++ e.desc ++ ")").data, by simp [String.data_append]⟩
    · exact ⟨(err.message ++ " (response to ").data, ")".data, by simp [String.data_append]⟩

/-- Witness for C9: a pending table with one call `translate("x")`
(id 7); an error response for id 9 is dropped without change, and an
error response for id 7 rejects with a message containing both texts. -/
theorem c9_rpc_response_handling_witness :
    handleWorkerMessage [⟨7, callDescription "translate" ["x"], "stk"⟩]
        ⟨9, none, some ⟨"boom", none⟩⟩ =
      ([⟨7, callDescription "translate" ["x"], "stk"⟩], none) ∧
    ∃ m stk,
      handleWorkerMessage [⟨7, callDescription "translate" ["x"], "stk"⟩]
          ⟨7, none, some ⟨"boom", none⟩⟩ =
        ([], some (.rejected m stk)) ∧
      "boom".data <+: m.data ∧ (callDescription "translate" ["x"]).data <:+: m.data := by
  constructor
  · exact c9_rpc_response_handling.1 _ _ (by decide)
  · obtain ⟨m, stk, hh, hpre, hinf⟩ := c9_rpc_response_handling.2.1
      [⟨7, callDescription "translate" ["x"], "stk"⟩] ⟨7, none, some ⟨"boom", none⟩⟩
      ⟨7, callDescription "translate" ["x"], "stk"⟩ ⟨"boom", none⟩ (by decide) rfl
    exact ⟨m, stk, by rw [hh]; rfl, hpre, hinf⟩

end EnsoRead
